import Mathlib

/-!
Shallow embedding of the UsbKeypad firmware and proofs about it.

The repository has three source files:
  - src/display.rs       coordinate mapping, framebuffer, event processing
  - src/lights/mod.rs    breathing-lights animation state machine
  - src/main.rs          cross-fade animation and the USB HID task

Rust u8/u32/i32 values are modelled as Nat/Int; wherever a source cast can
truncate (for example `index as u8`) an explicit `% 256` appears.  Hardware
side effects (I2C writes, `show` commits, logging) are outside the model;
the logical state they consume (the framebuffer, the produced key events,
the produced reports) is modelled explicitly.  A Rust panic
(`unimplemented!()` / `panic!`) is modelled as `none` / a dedicated
outcome constructor.
-/

namespace UsbKeypad

namespace Display

/-- `embedded_graphics::pixelcolor::Rgb888` — an RGB colour triple. -/
structure Color where
  r : Nat
  g : Nat
  b : Nat
  deriving DecidableEq, Repr

/-- `Rgb888::BLACK`. -/
def BLACK : Color := ⟨0, 0, 0⟩

/-- `Rgb888::WHITE`. -/
def WHITE : Color := ⟨255, 255, 255⟩

/-- `embedded_graphics::geometry::Point` — signed 2-D coordinates (i32). -/
structure Point where
  x : Int
  y : Int
  deriving DecidableEq, Repr

/-- `display.rs` `enum Error`: a device/bus error or an out-of-bounds
coordinate.  The `neotrellis::Error` payload is not used by any claim and
is dropped. -/
inductive Error where
  | Device : Error
  | OutOfBoundsCoordinate : Error
  deriving DecidableEq, Repr

/-- `adafruit_neotrellis::Edge` — the four edge/level kinds a keypad event
can report. -/
inductive Edge where
  | High : Edge
  | Low : Edge
  | Falling : Edge
  | Rising : Edge
  deriving DecidableEq, Repr

/-- `display.rs` `enum EventType`. -/
inductive EventType where
  | KeyDown : EventType
  | KeyUp : EventType
  deriving DecidableEq, Repr

/-- `display.rs` `struct KeyEvent`. -/
structure KeyEvent where
  usb_scan_code : Nat
  event_type : EventType
  deriving DecidableEq, Repr

/-- `impl From<neotrellis::Edge> for EventType` (display.rs:23-31).
`Falling ↦ KeyUp`, `Rising ↦ KeyDown`; every other edge hits
`unimplemented!()`, modelled as `none` (a panic). -/
def edgeToEventType : Edge → Option EventType
  | Edge.Falling => some EventType.KeyUp
  | Edge.Rising => some EventType.KeyDown
  | _ => none

/-- `index_for_device_and_pixel` (display.rs:68-70):
`device_idx * 16 + pix_idx`.  The u32 arithmetic cannot overflow for the
values the program feeds it (device ≤ 3, pixel ≤ 255). -/
def index_for_device_and_pixel (device_idx pix_idx : Nat) : Nat :=
  device_idx * 16 + pix_idx

/-- `NeoTrellisDisplay::index_for_coordinate` (display.rs:171-182).
The guard mirrors `if let Ok((0..=7, 0..=7)) = point.try_into()`: the
`i32 → u32` conversion fails on negatives and the range pattern rejects
values above 7.  Inside the guard both coordinates are in `0..=7`, so the
i32 `/` and `%` agree with every integer-division convention. -/
def index_for_coordinate (p : Point) : Except Error Nat :=
  if 0 ≤ p.x ∧ p.x ≤ 7 ∧ 0 ≤ p.y ∧ p.y ≤ 7 then
    Except.ok (index_for_device_and_pixel
      (1 - p.x / 4 + (1 - p.y / 4) * 2).toNat
      (p.x % 4 + p.y % 4 * 4).toNat)
  else
    Except.error Error.OutOfBoundsCoordinate

/-- The index produced for an in-bounds logical point, as a bare `Nat`
(projection of `index_for_coordinate` used to state the bijection; the
sentinel 64 is never produced on the in-bounds domain). -/
def pointIndex (x y : Fin 8) : Nat :=
  match index_for_coordinate ⟨(x.val : Int), (y.val : Int)⟩ with
  | Except.ok i => i
  | Except.error _ => 64

/-- The framebuffer: `[Rgb888; 64]`, modelled as a 64-element list. -/
abbrev Framebuffer := List Color

/-- `<NeoTrellisDisplay as DrawTarget>::draw_iter` (display.rs:192-202).
Each pixel whose coordinate maps in-bounds is written into the
framebuffer; a pixel whose coordinate is rejected is silently skipped.
The function always returns `Ok(())`. -/
def draw_iter (fb : Framebuffer) (pixels : List (Point × Color)) :
    Framebuffer × Except Error Unit :=
  (pixels.foldl
    (fun fb px =>
      match index_for_coordinate px.1 with
      | Except.ok index => fb.set index px.2
      | Except.error _ => fb)
    fb,
   Except.ok ())

/-- A raw keypad event as returned by `keypad.get_event`: the key number
(u8) and the reported edge. -/
structure RawEvent where
  key : Nat
  edge : Edge
  deriving DecidableEq, Repr

/-- The framebuffer update performed by the `match event.event` arm inside
`process_events` (display.rs:131-141): `Falling` paints the pixel black,
`Rising` paints it white, any other edge leaves the framebuffer alone. -/
def framebuffer_update (index : Nat) (e : Edge) (fb : Framebuffer) :
    Framebuffer :=
  match e with
  | Edge.Falling => fb.set index BLACK
  | Edge.Rising => fb.set index WHITE
  | _ => fb

/-- The body of the inner `process_events` loop for one received event
(display.rs:126-147): update the framebuffer, then build the `KeyEvent`
with `usb_scan_code = index as u8 + 4` (both the `as u8` cast and the u8
addition are truncating, hence the `% 256`s) and the edge converted by
`From<Edge>`.  The conversion panics (`none`) on a non-Rising/Falling
edge, in which case the handler is never invoked. -/
def process_one_event (dev_idx : Nat) (ev : RawEvent) (fb : Framebuffer) :
    Option (Framebuffer × KeyEvent) :=
  let index := index_for_device_and_pixel dev_idx ev.key
  let fb' := framebuffer_update index ev.edge fb
  match edgeToEventType ev.edge with
  | some et => some (fb', ⟨(index % 256 + 4) % 256, et⟩)
  | none => none

/-- The per-device loop of `process_events` (display.rs:123-154): read up
to `pending` events.  The oracle list `evs` holds the successive results
of `keypad.get_event`; an exhausted oracle also stands for a `None`
result.  On `None` an error is logged and the loop `break`s, abandoning
whatever is left of this device's queue; a panic inside the body aborts
everything (`none`).  Returns the framebuffer and the key events handed
to the event handler so far. -/
def run_device (dev_idx : Nat) :
    Nat → List (Option RawEvent) → Framebuffer → List KeyEvent →
    Option (Framebuffer × List KeyEvent)
  | 0, _, fb, ks => some (fb, ks)
  | _ + 1, [], fb, ks => some (fb, ks)
  | _ + 1, none :: _, fb, ks => some (fb, ks)
  | n + 1, some ev :: rest, fb, ks =>
    match process_one_event dev_idx ev fb with
    | some (fb', ke) => run_device dev_idx n rest fb' (ks ++ [ke])
    | none => none

/-- The outer `process_events` loop over the device array
(display.rs:119-155): each device contributes its pending-event count and
its `get_event` oracle; the results of one device feed the next.  The
final `flush` is a hardware commit and is outside the model. -/
def process_events_loop (dev_idx : Nat) :
    List (Nat × List (Option RawEvent)) → Framebuffer → List KeyEvent →
    Option (Framebuffer × List KeyEvent)
  | [], fb, ks => some (fb, ks)
  | (pending, evs) :: ds, fb, ks =>
    match run_device dev_idx pending evs fb ks with
    | some (fb', ks') => process_events_loop (dev_idx + 1) ds fb' ks'
    | none => none

/-- `NeoTrellisDisplay::process_events`, starting at device 0 with no
events handled yet. -/
def process_events (devs : List (Nat × List (Option RawEvent)))
    (fb : Framebuffer) : Option (Framebuffer × List KeyEvent) :=
  process_events_loop 0 devs fb []

end Display

namespace Lights

/-- `lights/mod.rs` `enum BreathingDirection`. -/
inductive BreathingDirection where
  | Increasing : BreathingDirection
  | Decreasing : BreathingDirection
  deriving DecidableEq, Repr

/-- The animation state of `BreathingLights` (lights/mod.rs:44-48): the
current direction and the u8 intensity value.  The `pixels` field holds
hardware handles and is outside the model. -/
structure BreathingState where
  direction : BreathingDirection
  value : Nat
  deriving DecidableEq, Repr

/-- `BreathingLights::new` (lights/mod.rs:51-57) initialises the state to
direction `Increasing` and value 0. -/
def breathingInit : BreathingState :=
  ⟨BreathingDirection.Increasing, 0⟩

/-- `BreathingLights::calculate_next_state` (lights/mod.rs:67-82).
`u8::saturating_add` is `min (· + ·) 255`; `u8::saturating_sub` is exactly
Nat subtraction.  The direction flips to `Decreasing` when the new value
is 255 and to `Increasing` when the new value is 0. -/
def calculate_next_state (STEP : Nat) (s : BreathingState) :
    BreathingState :=
  match s.direction with
  | BreathingDirection.Increasing =>
    let v := min (s.value + STEP) 255
    ⟨if v = 255 then BreathingDirection.Decreasing
      else BreathingDirection.Increasing, v⟩
  | BreathingDirection.Decreasing =>
    let v := s.value - STEP
    ⟨if v = 0 then BreathingDirection.Increasing
      else BreathingDirection.Decreasing, v⟩

/-- The state after `k` calls of `calculate_next_state` starting from the
freshly constructed `BreathingLights`. -/
def iterState (STEP : Nat) : Nat → BreathingState
  | 0 => breathingInit
  | k + 1 => calculate_next_state STEP (iterState STEP k)

end Lights

namespace Main

open Display (Color)

/-- The `apply_alpha` closure of `apply_breathing_effect` (main.rs:47-54):
the u8 channel value is widened to u32, scaled by the frame index
(`alpha < 50` ramps up, otherwise down, with truncating u32 division),
and the result is cast back with `as u8`, hence the `% 256`.  The
`100 - alpha` subtraction is u32 and cannot underflow for the frame
indices `0..100` the program uses. -/
def apply_alpha (value alpha : Nat) : Nat :=
  (if alpha < 50 then value * alpha / 50 else value * (100 - alpha) / 50)
    % 256

/-- The `convert_color` closure of `apply_breathing_effect`
(main.rs:56-62): `apply_alpha` on each channel. -/
def convert_color (c : Color) (alpha : Nat) : Color :=
  ⟨apply_alpha c.r alpha, apply_alpha c.g alpha, apply_alpha c.b alpha⟩

/-- Outcome of `hid_class.push_input` as seen by `hid_task`
(main.rs:256):  success, `UsbError::WouldBlock`, or any other error. -/
inductive UsbPushResult where
  | ok : UsbPushResult
  | wouldBlock : UsbPushResult
  | otherErr : UsbPushResult
  deriving DecidableEq, Repr

/-- `usbd_hid::descriptor::KeyboardReport` as built by `hid_task`
(main.rs:251-255). -/
structure KeyboardReport where
  modifier : Nat
  leds : Nat
  keycodes : List Nat
  deriving DecidableEq, Repr

/-- What `hid_task` does about the push result (main.rs:256-260):
sends the report, logs a warning and drops it, or panics. -/
inductive HidAction where
  | sent : HidAction
  | warnedWouldBlock : HidAction
  | panicked : HidAction
  deriving DecidableEq, Repr

/-- `hid_task` (main.rs:240-262): picks keycode `0x27` or `0` from the
ping-pong flag, flips the flag, builds the report with that single
keycode, and performs exactly one non-blocking push whose outcome is
classified by the `match`: `WouldBlock` is logged and the report dropped,
any other error panics, success sends.  Returns the new flag, the report
that was attempted, and the action taken. -/
def hid_task (keycode_pingpong : Bool) (push : UsbPushResult) :
    Bool × KeyboardReport × HidAction :=
  let keycode := if keycode_pingpong then 39 else 0
  let report : KeyboardReport := ⟨0, 0, [keycode, 0, 0, 0, 0, 0]⟩
  let action :=
    match push with
    | UsbPushResult.wouldBlock => HidAction.warnedWouldBlock
    | UsbPushResult.otherErr => HidAction.panicked
    | UsbPushResult.ok => HidAction.sent
  (!keycode_pingpong, report, action)

end Main

/-! ## Theorems -/

open Display Lights Main

/-- Every in-bounds logical point maps to the index `pointIndex` names. -/
theorem index_for_coordinate_eq_pointIndex (a b : Fin 8) :
    index_for_coordinate ⟨(a.val : Int), (b.val : Int)⟩ =
      Except.ok (pointIndex a b) := by
  fin_cases a <;> fin_cases b <;> rfl

/-- All produced indices lie below 64. -/
theorem pointIndex_lt (a b : Fin 8) : pointIndex a b < 64 := by
  revert a b
  decide

/-- In-bounds coordinates always map to some index below 64. -/
theorem index_for_coordinate_inBounds (x y : Int) (hx0 : 0 ≤ x)
    (hx7 : x ≤ 7) (hy0 : 0 ≤ y) (hy7 : y ≤ 7) :
    ∃ i : Nat, i < 64 ∧ index_for_coordinate ⟨x, y⟩ = Except.ok i := by
  have hx8 : x.toNat < 8 := by omega
  have hy8 : y.toNat < 8 := by omega
  refine ⟨pointIndex ⟨x.toNat, hx8⟩ ⟨y.toNat, hy8⟩, pointIndex_lt _ _, ?_⟩
  have key := index_for_coordinate_eq_pointIndex ⟨x.toNat, hx8⟩ ⟨y.toNat, hy8⟩
  rw [show ((x.toNat : Nat) : Int) = x from Int.toNat_of_nonneg hx0,
    show ((y.toNat : Nat) : Int) = y from Int.toNat_of_nonneg hy0] at key
  exact key

/-- C1: for every logical point with both coordinates in 0..=7,
`index_for_coordinate` returns `Ok(device*16 + pixel)` with
`device = (1 - x/4) + (1 - y/4)*2` and `pixel = (x mod 4) + (y mod 4)*4`
(truncating division), and the resulting map is a bijection from the 64
in-bounds points onto the framebuffer indices 0..=63. -/
theorem c1_coordinate_mapping_bijection :
    (∀ x y : Fin 8,
      index_for_coordinate ⟨(x.val : Int), (y.val : Int)⟩ =
        Except.ok (((1 - x.val / 4) + (1 - y.val / 4) * 2) * 16 +
          (x.val % 4 + y.val % 4 * 4))) ∧
    (∀ x y u v : Fin 8, pointIndex x y = pointIndex u v → x = u ∧ y = v) ∧
    (∀ i : Fin 64, ∃ x y : Fin 8, pointIndex x y = i.val) := by
  refine ⟨?_, ?_⟩
  · intro x y
    fin_cases x <;> fin_cases y <;> rfl
  · constructor
    · decide
    · decide

/-- C2: drawing one in-bounds pixel through `draw_iter` and reading the
framebuffer back at the index `index_for_coordinate` computes yields
exactly the drawn colour. -/
theorem c2_draw_roundtrip (p : Point) (c : Color) (fb : Framebuffer)
    (hlen : fb.length = 64) (hx0 : 0 ≤ p.x) (hx7 : p.x ≤ 7)
    (hy0 : 0 ≤ p.y) (hy7 : p.y ≤ 7) :
    ∃ i, index_for_coordinate p = Except.ok i ∧
      (draw_iter fb [(p, c)]).1[i]? = some c := by
  obtain ⟨x, y⟩ := p
  obtain ⟨i, hi, hok⟩ := index_for_coordinate_inBounds x y hx0 hx7 hy0 hy7
  refine ⟨i, hok, ?_⟩
  simp only [draw_iter, List.foldl_cons, List.foldl_nil, hok]
  exact List.getElem?_set_eq_of_lt c (by omega)

/-- C2 witness: a concrete in-bounds draw at (2,3). -/
theorem c2_draw_roundtrip_witness :
    ∃ i, index_for_coordinate ⟨2, 3⟩ = Except.ok i ∧
      (draw_iter (List.replicate 64 BLACK) [(⟨2, 3⟩, ⟨9, 8, 7⟩)]).1[i]? =
        some ⟨9, 8, 7⟩ :=
  c2_draw_roundtrip ⟨2, 3⟩ ⟨9, 8, 7⟩ (List.replicate 64 BLACK)
    (by simp) (by decide) (by decide) (by decide) (by decide)

/-- C3: an out-of-bounds pixel is clipped: `index_for_coordinate` reports
`OutOfBoundsCoordinate` when queried directly, while `draw_iter` returns
`Ok` and leaves the whole framebuffer untouched. -/
theorem c3_out_of_bounds_clipping (p : Point) (c : Color) (fb : Framebuffer)
    (h : p.x < 0 ∨ 7 < p.x ∨ p.y < 0 ∨ 7 < p.y) :
    index_for_coordinate p = Except.error Error.OutOfBoundsCoordinate ∧
    draw_iter fb [(p, c)] = (fb, Except.ok ()) := by
  have hguard : ¬(0 ≤ p.x ∧ p.x ≤ 7 ∧ 0 ≤ p.y ∧ p.y ≤ 7) := by omega
  have herr : index_for_coordinate p =
      Except.error Error.OutOfBoundsCoordinate := by
    rw [index_for_coordinate, if_neg hguard]
  refine ⟨herr, ?_⟩
  simp only [draw_iter, List.foldl_cons, List.foldl_nil, herr]

/-- C3 witness: the concrete out-of-bounds point (-1, 0). -/
theorem c3_out_of_bounds_clipping_witness :
    index_for_coordinate ⟨-1, 0⟩ =
      Except.error Error.OutOfBoundsCoordinate ∧
    draw_iter (List.replicate 64 WHITE) [(⟨-1, 0⟩, BLACK)] =
      (List.replicate 64 WHITE, Except.ok ()) :=
  c3_out_of_bounds_clipping ⟨-1, 0⟩ BLACK (List.replicate 64 WHITE)
    (by decide)

/-- C7: a Rising edge from device d, pixel k paints framebuffer entry
`d*16 + k` white and hands the handler a KeyDown whose scan code is
`d*16 + k + 4`; a Falling edge paints the same entry black and hands the
handler a KeyUp with the same scan code; the offset of the affine scan
code map is the constant 4. -/
theorem c7_event_to_key_and_pixel (d k : Nat) (fb : Framebuffer)
    (hd : d ≤ 3) (hk : k ≤ 15) (hlen : fb.length = 64) :
    process_one_event d ⟨k, Edge.Rising⟩ fb =
      some (fb.set (d * 16 + k) WHITE, ⟨d * 16 + k + 4, EventType.KeyDown⟩) ∧
    (fb.set (d * 16 + k) WHITE)[d * 16 + k]? = some WHITE ∧
    process_one_event d ⟨k, Edge.Falling⟩ fb =
      some (fb.set (d * 16 + k) BLACK, ⟨d * 16 + k + 4, EventType.KeyUp⟩) ∧
    (fb.set (d * 16 + k) BLACK)[d * 16 + k]? = some BLACK := by
  have hmod : (d * 16 + k) % 256 = d * 16 + k := Nat.mod_eq_of_lt (by omega)
  have hmod4 : (d * 16 + k + 4) % 256 = d * 16 + k + 4 :=
    Nat.mod_eq_of_lt (by omega)
  refine ⟨?_, ?_, ?_, ?_⟩
  · simp [process_one_event, framebuffer_update, index_for_device_and_pixel,
      edgeToEventType, hmod, hmod4]
  · exact List.getElem?_set_eq_of_lt WHITE (by omega)
  · simp [process_one_event, framebuffer_update, index_for_device_and_pixel,
      edgeToEventType, hmod, hmod4]
  · exact List.getElem?_set_eq_of_lt BLACK (by omega)

/-- C7 witness: device 1, pixel 2 on an all-black framebuffer. -/
theorem c7_event_to_key_and_pixel_witness :
    process_one_event 1 ⟨2, Edge.Rising⟩ (List.replicate 64 BLACK) =
      some ((List.replicate 64 BLACK).set 18 WHITE,
        ⟨22, EventType.KeyDown⟩) ∧
    ((List.replicate 64 BLACK).set 18 WHITE)[18]? = some WHITE ∧
    process_one_event 1 ⟨2, Edge.Falling⟩ (List.replicate 64 BLACK) =
      some ((List.replicate 64 BLACK).set 18 BLACK,
        ⟨22, EventType.KeyUp⟩) ∧
    ((List.replicate 64 BLACK).set 18 BLACK)[18]? = some BLACK :=
  c7_event_to_key_and_pixel 1 2 (List.replicate 64 BLACK)
    (by decide) (by decide) (by simp)

/-- Reading a None result with reads still pending behaves exactly like a
queue that only ever held the prefix: the remainder is abandoned. -/
theorem run_device_none_break (d : Nat) (pre : List RawEvent) :
    ∀ (N : Nat) (rest : List (Option RawEvent)) (fb : Framebuffer)
      (ks : List KeyEvent), pre.length < N →
      run_device d N (pre.map some ++ none :: rest) fb ks =
        run_device d pre.length (pre.map some) fb ks := by
  induction pre with
  | nil =>
    intro N rest fb ks hN
    obtain ⟨m, rfl⟩ : ∃ m, N = m + 1 := ⟨N - 1, by omega⟩
    rfl
  | cons e pre ih =>
    intro N rest fb ks hN
    obtain ⟨m, rfl⟩ : ∃ m, N = m + 1 := ⟨N - 1, by omega⟩
    have hm : pre.length < m := by
      simpa using Nat.lt_of_succ_lt_succ hN
    simp only [List.map_cons, List.cons_append, List.length_cons, run_device]
    cases hpe : process_one_event d e fb with
    | none => rfl
    | some r => exact ih m rest r.1 (ks ++ [r.2]) hm

/-- C8: if a device announced N pending events but `get_event` yields
None after only `pre` of them, `process_events` abandons the rest of that
device's queue for this tick (the abandoned tail is never read, so its
content is irrelevant), keeps the effects of the events already handled,
and carries on with the remaining devices exactly as if the device had
only announced the prefix. -/
theorem c8_incomplete_read_abandons_device (d N : Nat)
    (pre : List RawEvent) (rest : List (Option RawEvent))
    (ds : List (Nat × List (Option RawEvent))) (fb : Framebuffer)
    (ks : List KeyEvent) (h : pre.length < N) :
    process_events_loop d ((N, pre.map some ++ none :: rest) :: ds) fb ks =
      process_events_loop d ((pre.length, pre.map some) :: ds) fb ks := by
  simp only [process_events_loop]
  rw [run_device_none_break d pre N rest fb ks h]

/-- C8 witness: one device announcing 3 events but delivering 1, followed
by a second device; an arbitrary undelivered tail is dropped. -/
theorem c8_incomplete_read_abandons_device_witness :
    process_events_loop 0
      ((3, [⟨2, Edge.Rising⟩].map some ++
          none :: [some ⟨5, Edge.Rising⟩]) ::
        [(1, [some ⟨0, Edge.Falling⟩])])
      (List.replicate 64 BLACK) [] =
    process_events_loop 0
      ((1, [⟨2, Edge.Rising⟩].map some) ::
        [(1, [some ⟨0, Edge.Falling⟩])])
      (List.replicate 64 BLACK) [] :=
  c8_incomplete_read_abandons_device 0 3 [⟨2, Edge.Rising⟩]
    [some ⟨5, Edge.Rising⟩] [(1, [some ⟨0, Edge.Falling⟩])]
    (List.replicate 64 BLACK) [] (by decide)

/-- C9: when the push of the keyboard report reports WouldBlock the
report is dropped with only a warning — the task ends in exactly the
state a successful push would have produced, with the same report built
and no retry (the task performs a single push by construction) — while
any other push error makes the task panic. -/
theorem c9_would_block_drops_report (pingpong : Bool) :
    (hid_task pingpong UsbPushResult.wouldBlock).2.2 =
      HidAction.warnedWouldBlock ∧
    (hid_task pingpong UsbPushResult.wouldBlock).1 =
      (hid_task pingpong UsbPushResult.ok).1 ∧
    (hid_task pingpong UsbPushResult.wouldBlock).2.1 =
      (hid_task pingpong UsbPushResult.ok).2.1 ∧
    (hid_task pingpong UsbPushResult.otherErr).2.2 = HidAction.panicked := by
  cases pingpong <;> exact ⟨rfl, rfl, rfl, rfl⟩

/-- C9 witness: the concrete activation with the ping-pong flag set. -/
theorem c9_would_block_drops_report_witness :
    (hid_task true UsbPushResult.wouldBlock).2.2 =
      HidAction.warnedWouldBlock ∧
    (hid_task true UsbPushResult.wouldBlock).1 =
      (hid_task true UsbPushResult.ok).1 ∧
    (hid_task true UsbPushResult.wouldBlock).2.1 =
      (hid_task true UsbPushResult.ok).2.1 ∧
    (hid_task true UsbPushResult.otherErr).2.2 = HidAction.panicked :=
  c9_would_block_drops_report true

/-- C10: an event whose edge is neither Rising nor Falling leaves the
framebuffer-update arm a no-op, but the edge-to-EventType conversion hits
`unimplemented!()`, so processing the event panics: the handler is never
invoked and the device loop does not complete normally. -/
theorem c10_unknown_edge_panics (d : Nat) (ev : RawEvent)
    (fb : Framebuffer) (n : Nat) (rest : List (Option RawEvent))
    (ks : List KeyEvent) (h1 : ev.edge ≠ Edge.Rising)
    (h2 : ev.edge ≠ Edge.Falling) :
    framebuffer_update (index_for_device_and_pixel d ev.key) ev.edge fb =
      fb ∧
    edgeToEventType ev.edge = none ∧
    process_one_event d ev fb = none ∧
    run_device d (n + 1) (some ev :: rest) fb ks = none := by
  obtain ⟨k, e⟩ := ev
  cases e <;>
    simp_all [framebuffer_update, edgeToEventType, process_one_event,
      run_device]

/-- C10 witness: a High-level event on device 0, key 0. -/
theorem c10_unknown_edge_panics_witness :
    framebuffer_update (index_for_device_and_pixel 0 0) Edge.High
        (List.replicate 64 BLACK) = List.replicate 64 BLACK ∧
    edgeToEventType Edge.High = none ∧
    process_one_event 0 ⟨0, Edge.High⟩ (List.replicate 64 BLACK) = none ∧
    run_device 0 1 [some ⟨0, Edge.High⟩] (List.replicate 64 BLACK) [] =
      none :=
  c10_unknown_edge_panics 0 ⟨0, Edge.High⟩ (List.replicate 64 BLACK) 0 []
    [] (by decide) (by decide)

/-- Arithmetic facts about `ceil(255/STEP)` computed as
`(255 + STEP - 1) / STEP`. -/
theorem breathing_ceil_facts (STEP : Nat) (hstep : 0 < STEP) :
    255 ≤ ((255 + STEP - 1) / STEP) * STEP ∧
    ((255 + STEP - 1) / STEP - 1) * STEP < 255 ∧
    1 ≤ (255 + STEP - 1) / STEP := by
  have h1 : 255 + STEP - 1 = 254 + STEP := by omega
  have h2 : (254 + STEP) / STEP = 254 / STEP + 1 :=
    Nat.add_div_right 254 hstep
  have h3 : STEP * (254 / STEP) + 254 % STEP = 254 := Nat.div_add_mod 254 STEP
  have h4 : 254 % STEP < STEP := Nat.mod_lt 254 hstep
  rw [h1, h2]
  generalize 254 / STEP = q at h3 ⊢
  generalize 254 % STEP = r at h3 h4
  have e1 : (q + 1) * STEP = STEP * q + STEP := by ring
  have e2 : (q + 1 - 1) * STEP = STEP * q := by
    rw [Nat.add_sub_cancel, Nat.mul_comm]
  rw [e1, e2]
  generalize STEP * q = P at h3 ⊢
  omega

/-- Rising phase of the breathing wave: after k steps, while k·STEP is
still below 255, the state is Increasing at value k·STEP. -/
theorem iterState_up (STEP : Nat) (k : Nat) (h : k * STEP < 255) :
    iterState STEP k = ⟨BreathingDirection.Increasing, k * STEP⟩ := by
  induction k with
  | zero => simp [iterState, breathingInit]
  | succ k ih =>
    rw [Nat.succ_mul] at h
    have hk : k * STEP < 255 := by omega
    rw [iterState, ih hk]
    simp only [calculate_next_state]
    have hmin : min (k * STEP + STEP) 255 = k * STEP + STEP := by omega
    rw [hmin, if_neg (by omega), Nat.succ_mul]

/-- At step ceil(255/STEP) the wave tops out: value 255, now Decreasing. -/
theorem iterState_top (STEP : Nat) (hstep : 0 < STEP) :
    iterState STEP ((255 + STEP - 1) / STEP) =
      ⟨BreathingDirection.Decreasing, 255⟩ := by
  obtain ⟨hA, hB, hn1⟩ := breathing_ceil_facts STEP hstep
  obtain ⟨m, hm⟩ : ∃ m, (255 + STEP - 1) / STEP = m + 1 :=
    ⟨(255 + STEP - 1) / STEP - 1, by omega⟩
  rw [hm] at hA hB ⊢
  rw [Nat.add_sub_cancel] at hB
  rw [Nat.succ_mul] at hA
  rw [iterState, iterState_up STEP m hB]
  simp only [calculate_next_state]
  have hmin : min (m * STEP + STEP) 255 = 255 := by omega
  rw [hmin, if_pos rfl]

/-- Falling phase: j steps past the top, while j·STEP is below 255, the
state is Decreasing at value 255 - j·STEP. -/
theorem iterState_down (STEP : Nat) (hstep : 0 < STEP) (j : Nat)
    (h : j * STEP < 255) :
    iterState STEP ((255 + STEP - 1) / STEP + j) =
      ⟨BreathingDirection.Decreasing, 255 - j * STEP⟩ := by
  induction j with
  | zero => simpa using iterState_top STEP hstep
  | succ j ih =>
    rw [Nat.succ_mul] at h
    have hj : j * STEP < 255 := by omega
    have hstepk : (255 + STEP - 1) / STEP + (j + 1) =
        ((255 + STEP - 1) / STEP + j) + 1 := by omega
    rw [hstepk, iterState, ih hj]
    simp only [calculate_next_state]
    have hv : 255 - j * STEP - STEP = 255 - (j + 1) * STEP := by
      rw [Nat.succ_mul]; omega
    rw [hv, if_neg (by omega)]

/-- A full cycle of 2·ceil(255/STEP) steps returns the engine to its
initial state. -/
theorem iterState_cycle (STEP : Nat) (hstep : 0 < STEP) :
    iterState STEP ((255 + STEP - 1) / STEP * 2) = breathingInit := by
  obtain ⟨hA, hB, hn1⟩ := breathing_ceil_facts STEP hstep
  obtain ⟨m, hm⟩ : ∃ m, (255 + STEP - 1) / STEP = m + 1 :=
    ⟨(255 + STEP - 1) / STEP - 1, by omega⟩
  have hsplit : (255 + STEP - 1) / STEP * 2 =
      ((255 + STEP - 1) / STEP + m) + 1 := by omega
  have hmB : m * STEP < 255 := by
    rw [hm, Nat.add_sub_cancel] at hB
    exact hB
  rw [hsplit, iterState, iterState_down STEP hstep m hmB]
  simp only [calculate_next_state]
  have hv : 255 - m * STEP - STEP = 0 := by
    rw [hm, Nat.succ_mul] at hA
    omega
  rw [hv, if_pos rfl]
  rfl

/-- Strictly inside the cycle the breathing value never returns to 0. -/
theorem iterState_ne_zero (STEP : Nat) (hstep : 0 < STEP) (k : Nat)
    (h0 : 0 < k) (h2n : k < (255 + STEP - 1) / STEP * 2) :
    (iterState STEP k).value ≠ 0 := by
  obtain ⟨hA, hB, hn1⟩ := breathing_ceil_facts STEP hstep
  rcases lt_trichotomy k ((255 + STEP - 1) / STEP) with hk | hk | hk
  · have hkS : k * STEP < 255 :=
      lt_of_le_of_lt (Nat.mul_le_mul_right STEP (by omega)) hB
    rw [iterState_up STEP k hkS]
    have hstepk : STEP ≤ k * STEP := by
      calc STEP = 1 * STEP := (one_mul STEP).symm
        _ ≤ k * STEP := Nat.mul_le_mul_right STEP h0
    simp only []
    omega
  · rw [hk, iterState_top STEP hstep]
    simp
  · obtain ⟨j, hj⟩ : ∃ j, k = (255 + STEP - 1) / STEP + j :=
      ⟨k - (255 + STEP - 1) / STEP, by omega⟩
    have hjn : j < (255 + STEP - 1) / STEP := by omega
    have hjS : j * STEP < 255 :=
      lt_of_le_of_lt (Nat.mul_le_mul_right STEP (by omega)) hB
    rw [hj, iterState_down STEP hstep j hjS]
    simp only []
    omega

/-- C5: with the engine started at value 0 Increasing and a fixed step,
one tick keeps the value in 0..=255 (the arithmetic saturates, values are
never negative by construction); the direction flips Increasing →
Decreasing exactly when the new value is 255 and Decreasing → Increasing
exactly when the new value is 0; and for STEP > 0 the triangle wave first
returns to value 0 — back in the initial state — after exactly
ceil(255/STEP)·2 steps. -/
theorem c5_breathing_triangle_wave (STEP : Nat) (s : BreathingState)
    (hstep : 0 < STEP) (hstep255 : STEP ≤ 255) (hs : s.value ≤ 255) :
    (calculate_next_state STEP s).value ≤ 255 ∧
    (s.direction = BreathingDirection.Increasing →
      ((calculate_next_state STEP s).direction =
          BreathingDirection.Decreasing ↔
        (calculate_next_state STEP s).value = 255)) ∧
    (s.direction = BreathingDirection.Decreasing →
      ((calculate_next_state STEP s).direction =
          BreathingDirection.Increasing ↔
        (calculate_next_state STEP s).value = 0)) ∧
    iterState STEP ((255 + STEP - 1) / STEP * 2) = breathingInit ∧
    (∀ k : Nat, 0 < k → k < (255 + STEP - 1) / STEP * 2 →
      (iterState STEP k).value ≠ 0) := by
  obtain ⟨dir, v⟩ := s
  have hv : v ≤ 255 := hs
  refine ⟨?_, ?_, ?_, iterState_cycle STEP hstep,
    fun k hk h2n => iterState_ne_zero STEP hstep k hk h2n⟩
  · cases dir
    · simp only [calculate_next_state]
      exact min_le_right _ _
    · simp only [calculate_next_state]
      omega
  · intro hdir
    cases dir with
    | Increasing =>
      simp only [calculate_next_state]
      split
      · simp_all
      · simp_all
    | Decreasing => simp_all
  · intro hdir
    cases dir with
    | Increasing => simp_all
    | Decreasing =>
      simp only [calculate_next_state]
      split
      · simp_all
      · simp_all

/-- C5 witness: STEP = 26 from value 100 Increasing; the cycle facts are
instantiated with the concrete cycle length 20. -/
theorem c5_breathing_triangle_wave_witness :
    (calculate_next_state 26 ⟨BreathingDirection.Increasing, 100⟩).value ≤
      255 ∧
    ((⟨BreathingDirection.Increasing, 100⟩ : BreathingState).direction =
        BreathingDirection.Increasing →
      ((calculate_next_state 26
            ⟨BreathingDirection.Increasing, 100⟩).direction =
          BreathingDirection.Decreasing ↔
        (calculate_next_state 26
            ⟨BreathingDirection.Increasing, 100⟩).value = 255)) ∧
    ((⟨BreathingDirection.Increasing, 100⟩ : BreathingState).direction =
        BreathingDirection.Decreasing →
      ((calculate_next_state 26
            ⟨BreathingDirection.Increasing, 100⟩).direction =
          BreathingDirection.Increasing ↔
        (calculate_next_state 26
            ⟨BreathingDirection.Increasing, 100⟩).value = 0)) ∧
    iterState 26 ((255 + 26 - 1) / 26 * 2) = breathingInit ∧
    (∀ k : Nat, 0 < k → k < (255 + 26 - 1) / 26 * 2 →
      (iterState 26 k).value ≠ 0) :=
  c5_breathing_triangle_wave 26 ⟨BreathingDirection.Increasing, 100⟩
    (by decide) (by decide) (by decide)

/-- Scaled channel values stay below 256, so the `as u8` cast of
`apply_alpha` truncates nothing. -/
theorem apply_alpha_scale_lt (w m : Nat) (hw : w ≤ 255) (hm : m ≤ 50) :
    w * m / 50 < 256 := by
  have h : w * m / 50 ≤ 255 * 50 / 50 :=
    Nat.div_le_div_right (Nat.mul_le_mul hw hm)
  omega

/-- C6: for a frame index below 100 and an 8-bit channel value, the
cross-fade computes `v*i/50` while ramping up (`i < 50`) and
`v*(100-i)/50` while ramping down, with truncating division; it is 0 at
frame 0, exactly `v` at frame 50, maps `v = 200`, `i = 25` to 100, and
frames `i` and `100-i` (for `0 < i < 50`) agree. -/
theorem c6_cross_fade (i v : Nat) (hi : i < 100) (hv : v ≤ 255) :
    apply_alpha v i =
      (if i < 50 then v * i / 50 else v * (100 - i) / 50) ∧
    apply_alpha v 0 = 0 ∧
    apply_alpha v 50 = v ∧
    apply_alpha 200 25 = 100 ∧
    (0 < i → i < 50 → apply_alpha v i = apply_alpha v (100 - i)) := by
  refine ⟨?_, ?_, ?_, by decide, ?_⟩
  · by_cases h : i < 50
    · simp only [apply_alpha, if_pos h]
      exact Nat.mod_eq_of_lt (apply_alpha_scale_lt v i hv (by omega))
    · simp only [apply_alpha, if_neg h]
      exact Nat.mod_eq_of_lt (apply_alpha_scale_lt v (100 - i) hv (by omega))
  · simp [apply_alpha]
  · have h50 : ¬(50 < 50) := by omega
    simp only [apply_alpha, if_neg (by omega : ¬(50 : Nat) < 50)]
    have : (100 : Nat) - 50 = 50 := by omega
    rw [this, Nat.mul_div_cancel v (by omega : (0 : Nat) < 50)]
    exact Nat.mod_eq_of_lt (by omega)
  · intro h0 h50
    have hmirror : 100 - (100 - i) = i := by omega
    simp only [apply_alpha, if_pos h50,
      if_neg (by omega : ¬(100 - i < 50)), hmirror]

/-- C6 witness: the spec's worked example, frame 25 over channel 200. -/
theorem c6_cross_fade_witness :
    (apply_alpha 200 25 =
      (if 25 < 50 then 200 * 25 / 50 else 200 * (100 - 25) / 50) ∧
    apply_alpha 200 0 = 0 ∧
    apply_alpha 200 50 = 200 ∧
    apply_alpha 200 25 = 100 ∧
    (0 < 25 → 25 < 50 → apply_alpha 200 25 = apply_alpha 200 (100 - 25))) :=
  c6_cross_fade 25 200 (by decide) (by decide)

end UsbKeypad
